import Mathlib

/-!
Shallow embedding of the network-capture and action-classification engine of
`capture_webstaurant_requests.py`, together with proofs of the specification
claims about it.  Python dictionaries are modelled as association lists that
preserve Python dict semantics (insertion order, overwrite keeps the original
position of a key); the small regular-expression subset actually used by the
`ACTIONS` table is modelled by an executable matcher.
-/

namespace Webstraunt

/-! ### Regular-expression subset

The patterns in `ACTIONS` use only: literal characters, `.*`, an escaped
literal `\?`, a single optional character `c?`, the group `(\?|$)`, the
anchors `^` (pattern-initial) and `$` (pattern-final), and the class `[^/]+`.
`re.search` with the `re.I` flag scans every start position (unless the
pattern is anchored with `^`) and compares characters case-insensitively. -/

inductive Tok where
  /-- Matches exactly the given character, case-insensitively. -/
  | lit (c : Char)
  /-- Greedy `.*`: zero or more characters other than a newline. -/
  | anyStar
  /-- The class `[^/]+`: one or more characters other than a slash. -/
  | nonSlashPlus
  /-- An optional character `c?`, case-insensitively. -/
  | opt (c : Char)
  /-- The group `(\?|$)`: a literal question mark, or end of input. -/
  | altQmarkEnd
  /-- The anchor `$`: end of input. -/
  | eol
deriving Repr, DecidableEq

/-- One pattern of the `ACTIONS` table: an optional `^` anchor and a token body. -/
structure Pat where
  anchored : Bool
  toks : List Tok
deriving Repr, DecidableEq

/-- Case-insensitive character comparison (the effect of the `re.I` flag). -/
def eqci (a b : Char) : Bool := a.toLower == b.toLower

/-- Backtracking loop of `.*`: the rest of the pattern (the continuation `k`)
is tried at the current position and, as long as the next character is not a
newline, at every later position. -/
def starLoop (k : List Char → Bool) : List Char → Bool
  | [] => k []
  | x :: s2 => k (x :: s2) || (x != '\n' && starLoop k s2)

/-- Backtracking loop of `[^/]+`: at least one character other than a slash
is consumed, then the rest of the pattern (the continuation `k`) is tried
after each further non-slash character. -/
def plusLoop (k : List Char → Bool) : List Char → Bool
  | [] => false
  | x :: s2 => x != '/' && (k s2 || plusLoop k s2)

/-- Matches a token list against the beginning of a character list, allowing
trailing input to remain (as `re.search` does). -/
def matchToks : List Tok → List Char → Bool
  | [] => fun _ => true
  | Tok.lit c :: ts => fun s =>
      match s with
      | [] => false
      | x :: s2 => eqci x c && matchToks ts s2
  | Tok.eol :: ts => fun s => s.isEmpty && matchToks ts s
  | Tok.opt c :: ts => fun s =>
      matchToks ts s ||
        (match s with
         | [] => false
         | x :: s2 => eqci x c && matchToks ts s2)
  | Tok.altQmarkEnd :: ts => fun s =>
      (match s with
       | [] => false
       | x :: s2 => eqci x '?' && matchToks ts s2) ||
        (s.isEmpty && matchToks ts s)
  | Tok.anyStar :: ts => starLoop (matchToks ts)
  | Tok.nonSlashPlus :: ts => plusLoop (matchToks ts)

/-- Tries `matchToks` at every start position of the input. -/
def searchFrom (toks : List Tok) : List Char → Bool
  | [] => matchToks toks []
  | c :: s => matchToks toks (c :: s) || searchFrom toks s

/-- Embeds `re.search(p, s, re.I)`: an anchored pattern is tried only at the
start of the string, an unanchored one at every position. -/
def reSearch (p : Pat) (s : String) : Bool :=
  if p.anchored then matchToks p.toks s.data else searchFrom p.toks s.data

/-- From the source: `matches(url, pats)` is true when any pattern of the list
matches the url. -/
def urlMatches (url : String) (pats : List Pat) : Bool :=
  pats.any (fun p => reSearch p url)

/-- Lifts a plain string into a list of literal tokens. -/
def lits (cs : String) : List Tok := cs.data.map Tok.lit

/-- From the source: the fixed table of action names and url patterns, in its
fixed enumeration order. -/
def ACTIONS : List (String × List Pat) := [
  ("fetch_product", [
    ⟨false, lits "/graphql"⟩,
    ⟨false, lits "/api/" ++ [Tok.anyStar] ++ lits "product"⟩,
    ⟨false, lits "/ajax/" ++ [Tok.anyStar] ++ lits "product"⟩,
    ⟨false, lits "/product" ++ [Tok.anyStar] ++ lits "price"⟩,
    ⟨false, lits "/inventory"⟩,
    ⟨false, lits "/availability"⟩]),
  ("add_to_cart", [
    ⟨false, lits "/cart" ++ [Tok.anyStar] ++ lits "add"⟩,
    ⟨false, lits "/cart/line"⟩,
    ⟨false, lits "/ajax/" ++ [Tok.anyStar] ++ lits "cart"⟩,
    ⟨false, lits "/api/" ++ [Tok.anyStar] ++ lits "cart"⟩,
    ⟨false, lits "/cart" ++ [Tok.lit '?']⟩]),
  ("view_cart", [
    ⟨true, lits "https://" ++ [Tok.nonSlashPlus] ++ lits "/cart" ++ [Tok.opt '/', Tok.eol]⟩,
    ⟨false, lits "/cart" ++ [Tok.altQmarkEnd]⟩,
    ⟨false, lits "/api/" ++ [Tok.anyStar] ++ lits "cart"⟩]),
  ("go_to_checkout", [
    ⟨false, lits "/checkout"⟩,
    ⟨false, lits "/checkout/start"⟩,
    ⟨false, lits "/api/" ++ [Tok.anyStar] ++ lits "checkout"⟩,
    ⟨false, lits "/ajax/" ++ [Tok.anyStar] ++ lits "checkout"⟩]),
  ("sign_in", [
    ⟨false, lits "/login"⟩,
    ⟨false, lits "/sign" ++ [Tok.opt '-'] ++ lits "in"⟩,
    ⟨false, lits "/session"⟩,
    ⟨false, lits "/oauth"⟩,
    ⟨false, lits "/identity"⟩,
    ⟨false, lits "/api/" ++ [Tok.anyStar] ++ lits "auth"⟩,
    ⟨false, lits "/auth"⟩])]

/-! ### Header redaction -/

/-- Header mappings, in emission order. -/
abbrev Headers := List (String × String)

/-- Python `str.lower()`: char-wise lowering of the string. -/
def lowerStr (s : String) : String := String.mk (s.data.map Char.toLower)

/-- Python `str.upper()`: char-wise uppering of the string. -/
def upperStr (s : String) : String := String.mk (s.data.map Char.toUpper)

/-- From the source: the fixed redaction set. -/
def HIDE_HDRS : List String := ["cookie", "authorization", "x-csrf-token", "x-xsrf-token"]

/-- From the source: `redact(h)` replaces the value of every header whose
lower-cased name belongs to `HIDE_HDRS` by the fixed marker. -/
def redact (h : Headers) : Headers :=
  h.map (fun kv => (kv.1, if HIDE_HDRS.contains (lowerStr kv.1) then "<redacted>" else kv.2))

/-! ### Raw log entries and lifecycle messages -/

/-- Payload of `p.get("request", {})`; every field is read with `dict.get`, so
all fields are optional. -/
structure ReqPayload where
  url : Option String := none
  method : Option String := none
  headers : Option Headers := none
  postData : Option String := none
deriving Repr, DecidableEq

/-- Payload of `p.get("response", {})`. -/
structure RespPayload where
  status : Option Int := none
  headers : Option Headers := none
  mimeType : Option String := none
deriving Repr, DecidableEq

/-- The params mapping of a message; a missing `request` or `response` key is
the all-default payload, exactly the effect of `p.get(..., {})`. -/
structure Params where
  requestId : Option String := none
  request : ReqPayload := {}
  response : RespPayload := {}
deriving Repr, DecidableEq

/-- One decoded performance message: `m.get("method")` and
`m.get("params", {})`. -/
structure Msg where
  method : Option String := none
  params : Params := {}
deriving Repr, DecidableEq

/-- One raw performance-log entry. The source runs
`json.loads(e["message"])["message"]` under try/except; the external JSON
parse is abstracted as the optional payload, `none` standing for any
malformed entry (parse failure or missing key). -/
structure RawEntry where
  message : Option Msg
deriving Repr, DecidableEq

/-- From the source: `perf(d)` yields the parsed message of each entry and
silently skips every malformed one. -/
def perf (entries : List RawEntry) : List Msg :=
  entries.filterMap RawEntry.message

/-! ### Python dicts as insertion-ordered association lists -/

/-- Python dict assignment `d[k] = v`: overwrite the entry of an existing key
in place (keeping its original position), append a new key at the end. -/
def dictInsert {V : Type} : List (String × V) → String → V → List (String × V)
  | [], k, v => [(k, v)]
  | p :: m, k, v => if p.1 == k then (k, v) :: m else p :: dictInsert m k v

/-- Python `d.get(k)`. -/
def dlookup {V : Type} : List (String × V) → String → Option V
  | [], _ => none
  | p :: m, k => if p.1 == k then some p.2 else dlookup m k

/-- Python `d.update(other)`: insert the pairs of `other` in their order. -/
def dictUpdate {V : Type} (m other : List (String × V)) : List (String × V) :=
  other.foldl (fun acc p => dictInsert acc p.1 p.2) m

/-! ### Correlator -/

/-- A stored RequestRecord, as built by `collect`. -/
structure Req where
  seq : Nat
  url : String
  method : String
  headers : Headers
  postData : Option String
deriving Repr, DecidableEq

/-- A stored ResponseRecord, as built by `collect`. -/
structure Resp where
  status : Option Int
  headers : Headers
  mimeType : Option String
deriving Repr, DecidableEq

/-- The mutable state of one `collect` run: the counter and the two maps. -/
structure CollectState where
  seq : Nat
  reqs : List (String × Req)
  resps : List (String × Resp)
deriving Repr, DecidableEq

/-- The RequestRecord stored for an accepted `Network.requestWillBeSent`
message, with the source defaults for missing payload fields. -/
def mkReq (seq : Nat) (r : ReqPayload) : Req :=
  { seq := seq
    url := r.url.getD ""
    method := r.method.getD "GET"
    headers := r.headers.getD []
    postData := r.postData }

/-- The ResponseRecord stored for a `Network.responseReceived` message. -/
def mkResp (r : RespPayload) : Resp :=
  { status := r.status
    headers := r.headers.getD []
    mimeType := r.mimeType }

/-- One iteration of the `collect` loop. A request id is accepted only when
`if rid:` holds, that is the id is present and non-empty. -/
def collectStep (st : CollectState) (m : Msg) : CollectState :=
  let p := m.params
  if m.method == some "Network.requestWillBeSent" then
    match p.requestId with
    | some rid =>
        if rid.isEmpty then st
        else
          { seq := st.seq + 1
            reqs := dictInsert st.reqs rid (mkReq (st.seq + 1) p.request)
            resps := st.resps }
    | none => st
  else if m.method == some "Network.responseReceived" then
    match p.requestId with
    | some rid =>
        if rid.isEmpty then st
        else { st with resps := dictInsert st.resps rid (mkResp p.response) }
    | none => st
  else st

/-- Runs the `collect` loop from an arbitrary state. -/
def collectFrom (st : CollectState) (msgs : List Msg) : CollectState :=
  msgs.foldl collectStep st

/-- From the source: `collect(d)` starts at `seq=0` with empty maps and
returns the request and response maps of the final state. -/
def collect (msgs : List Msg) : List (String × Req) × List (String × Resp) :=
  ((collectFrom ⟨0, [], []⟩ msgs).reqs, (collectFrom ⟨0, [], []⟩ msgs).resps)

/-! ### Selector -/

/-- A bucketed candidate: the request record decorated with its id,
`{**rq, "rid": rid}` in the source. -/
structure Cand where
  seq : Nat
  url : String
  method : String
  headers : Headers
  postData : Option String
  rid : String
deriving Repr, DecidableEq

/-- Decoration of a request record with its exchange id. -/
def decorate (rid : String) (rq : Req) : Cand :=
  { seq := rq.seq, url := rq.url, method := rq.method, headers := rq.headers,
    postData := rq.postData, rid := rid }

/-- Sort key of `pick_best`: `(0 if x["method"].upper()=="POST" else 1, -x["seq"])`. -/
def sortKey (x : Cand) : Nat × Int :=
  (if upperStr x.method == "POST" then 0 else 1, -(x.seq : Int))

/-- Lexicographic comparison of sort keys, the order of Python tuples. -/
def candLe (a b : Cand) : Prop :=
  (sortKey a).1 < (sortKey b).1 ∨
    ((sortKey a).1 = (sortKey b).1 ∧ (sortKey a).2 ≤ (sortKey b).2)

instance : DecidableRel candLe := fun a b => by
  unfold candLe; infer_instance

instance : IsTotal Cand candLe := by
  constructor; intro a b; unfold candLe; omega

instance : IsTrans Cand candLe := by
  constructor; intro a b c; unfold candLe; omega

instance : IsRefl Cand candLe := by
  constructor; intro a; unfold candLe; omega

/-- Stable sort by the sort key: the effect of `sorted(cands, key=...)`.
Insertion sort places an element before the first existing element it
compares `candLe` to, so elements with equal keys keep their original
relative order, exactly as Python's stable sort orders them. -/
def sortedBy (l : List Cand) : List Cand := l.insertionSort candLe

/-- From the source: `pick_best(cands)` returns `None` on an empty bucket and
otherwise the head of the stable sort by `(priorityRank(method), -seq)`. -/
def pick_best (cands : List Cand) : Option Cand :=
  if cands.isEmpty then none else (sortedBy cands).head?

/-! ### Classifier -/

/-- Appends a candidate to the bucket of the given action, leaving the other
buckets unchanged. -/
def bucketAppend (bs : List (String × List Cand)) (a : String) (c : Cand) :
    List (String × List Cand) :=
  bs.map (fun p => if p.1 == a then (p.1, p.2 ++ [c]) else p)

/-- One iteration of the bucketing loop: the request is appended to the
bucket of the first action whose pattern set matches its url (the `break`
after the first match); a request matching no action is dropped. -/
def bucketStep (bs : List (String × List Cand)) (rp : String × Req) :
    List (String × List Cand) :=
  match ACTIONS.find? (fun ap => urlMatches rp.2.url ap.2) with
  | some ap => bucketAppend bs ap.1 (decorate rp.1 rp.2)
  | none => bs

/-- From the source: buckets start empty for every action and the bucketing
loop runs over the combined requests in order. -/
def buckets (combined : List (String × Req)) : List (String × List Cand) :=
  combined.foldl bucketStep (ACTIONS.map (fun ap => (ap.1, [])))

/-- The first action of the table whose pattern set matches the url: the
action a request is bucketed under, if any. -/
def firstAction (url : String) : Option String :=
  (ACTIONS.find? (fun ap => urlMatches url ap.2)).map (fun ap => ap.1)

/-- The pattern set the table configures for an action name. -/
def patsOf (a : String) : List Pat := (dlookup ACTIONS a).getD []

/-- Python `buckets[action]`. -/
def bucketOf (combined : List (String × Req)) (a : String) : List Cand :=
  (dlookup (buckets combined) a).getD []

/-- The request record a candidate decorates. -/
def reqOf (c : Cand) : Req :=
  { seq := c.seq, url := c.url, method := c.method, headers := c.headers,
    postData := c.postData }

/-! ### Aggregator -/

/-- One phase snapshot as appended to `all_snapshots`. -/
structure Snap where
  phase : String
  reqs : List (String × Req)
  resps : List (String × Resp)
deriving Repr, DecidableEq

/-- From the source: combined requests are a left-to-right fold of
`dict.update` over the snapshots. -/
def combined_reqs (snaps : List Snap) : List (String × Req) :=
  snaps.foldl (fun acc s => dictUpdate acc s.reqs) []

/-- From the source: combined responses, same fold. -/
def combined_resps (snaps : List Snap) : List (String × Resp) :=
  snaps.foldl (fun acc s => dictUpdate acc s.resps) []

/-! ### Exported representations (printed summary and JSON dump) -/

/-- The header-bearing content printed by `print_request`: the request headers
go through `redact`, the response headers are printed as stored.  The body
snippets printed after them carry no headers and are omitted. -/
structure PrintedExchange where
  method : String
  url : String
  requestHeaders : Headers
  status : Option Int
  responseHeaders : Headers
deriving Repr, DecidableEq

/-- From the source: the record printed by `print_request(title, req, resp, ...)`. -/
def print_request (req : Cand) (resp : Resp) : PrintedExchange :=
  { method := req.method
    url := req.url
    requestHeaders := redact req.headers
    status := resp.status
    responseHeaders := resp.headers }

/-- From the source: the persisted JSON dump lists each phase with its stored
request and response maps written as-is, with no redaction applied. -/
def dump_phases (snaps : List Snap) :
    List (String × List (String × Req) × List (String × Resp)) :=
  snaps.map (fun s => (s.phase, s.reqs, s.resps))

/-- Action names iterated by the summary loop of `main`, in its order. -/
def SUMMARY_ACTIONS : List String :=
  ["fetch_product", "add_to_cart", "view_cart", "go_to_checkout", "sign_in"]

/-- From `main`: the summary associates to every action name the selected
exchange of its bucket (`none` is printed as "not observed"). -/
def summary (combined : List (String × Req)) : List (String × Option Cand) :=
  SUMMARY_ACTIONS.map (fun a => (a, pick_best ((dlookup (buckets combined) a).getD [])))

/-- The full pipeline on the ordered list of raw log-entry batches: decode
each batch, correlate it into a snapshot, and aggregate the snapshots. -/
def pipeline (batches : List (String × List RawEntry)) :
    List (String × Req) × List (String × Resp) :=
  let snaps := batches.map (fun b =>
    let c := collect (perf b.2)
    Snap.mk b.1 c.1 c.2)
  (combined_reqs snaps, combined_resps snaps)

/-! ### Derived notions and concrete test data used by the claims -/

/-- A well-formed RequestInitiated message carrying an id and a payload. -/
def reqMsg (rid : String) (r : ReqPayload) : Msg :=
  { method := some "Network.requestWillBeSent"
    params := { requestId := some rid, request := r } }

/-- A well-formed ResponseArrived message carrying an id and a payload. -/
def respMsg (rid : String) (r : RespPayload) : Msg :=
  { method := some "Network.responseReceived"
    params := { requestId := some rid, response := r } }

/-- Every header of the mapping whose name case-insensitively belongs to the
redaction set carries the fixed marker. -/
def redactedOK (hs : Headers) : Prop :=
  ∀ kv ∈ hs, lowerStr kv.1 ∈ HIDE_HDRS → kv.2 = "<redacted>"

instance (hs : Headers) : Decidable (redactedOK hs) := by
  unfold redactedOK; infer_instance

/-- The request record of the last snapshot of the list containing the id. -/
def lastReq (snaps : List Snap) (id : String) : Option Req :=
  snaps.foldl (fun acc s => (dlookup s.reqs id).or acc) none

/-- The response record of the last snapshot of the list containing the id. -/
def lastResp (snaps : List Snap) (id : String) : Option Resp :=
  snaps.foldl (fun acc s => (dlookup s.resps id).or acc) none

/-- A candidate with its method rewritten and every other field kept. -/
def mapMethod (f : String → String) (c : Cand) : Cand :=
  { c with method := f c.method }

/-- Counter of accepted RequestInitiated events: the final value of `seq`. -/
def seqCounter (msgs : List Msg) : Nat :=
  (collectFrom ⟨0, [], []⟩ msgs).seq

/-- Candidate of the spec's selector tie-break test: GET with sequence 5. -/
def candGET5 : Cand :=
  { seq := 5, url := "", method := "GET", headers := [], postData := none, rid := "a" }

/-- Candidate of the spec's selector tie-break test: POST with sequence 2. -/
def candPOST2 : Cand :=
  { seq := 2, url := "", method := "POST", headers := [], postData := none, rid := "b" }

/-- Candidate of the spec's selector tie-break test: POST with sequence 9. -/
def candPOST9 : Cand :=
  { seq := 9, url := "", method := "POST", headers := [], postData := none, rid := "c" }

/-- A candidate whose method is lower-case "post", sequence 1. -/
def candLowerPost1 : Cand :=
  { seq := 1, url := "", method := "post", headers := [], postData := none, rid := "d" }

/-- A GET candidate with the high sequence 9. -/
def candGET9 : Cand :=
  { seq := 9, url := "", method := "GET", headers := [], postData := none, rid := "e" }

/-- A PUT candidate with sequence 7. -/
def candPUT7 : Cand :=
  { seq := 7, url := "", method := "PUT", headers := [], postData := none, rid := "f" }

/-- A DELETE candidate with sequence 6. -/
def candDELETE6 : Cand :=
  { seq := 6, url := "", method := "DELETE", headers := [], postData := none, rid := "g" }

/-- A selected candidate carrying a sensitive request header. -/
def exCand : Cand :=
  { seq := 7, url := "https://www.webstaurantstore.com/cart/", method := "GET",
    headers := [("Authorization", "Bearer abc")], postData := none, rid := "r7" }

/-- A response carrying a sensitive header. -/
def exResp : Resp :=
  { status := some 200, headers := [("Cookie", "session=s3cr3t")],
    mimeType := some "text/html" }

/-- A stored request record carrying a sensitive header. -/
def exReq : Req :=
  { seq := 7, url := "https://www.webstaurantstore.com/cart/", method := "GET",
    headers := [("Authorization", "Bearer abc")], postData := none }

/-- A phase snapshot holding `exReq` and `exResp`. -/
def exSnap : Snap := { phase := "pdp", reqs := [("r7", exReq)], resps := [("r7", exResp)] }

/-- Phase A request of the spec's aggregation-overwrite test. -/
def reqCartA : Req :=
  { seq := 1, url := "/cart", method := "GET", headers := [], postData := none }

/-- Phase B request of the spec's aggregation-overwrite test. -/
def reqCartB : Req :=
  { seq := 1, url := "/cart/updated", method := "GET", headers := [], postData := none }

/-- Phase A snapshot of the spec's aggregation-overwrite test. -/
def snapA : Snap := { phase := "A", reqs := [("X", reqCartA)], resps := [] }

/-- Phase B snapshot of the spec's aggregation-overwrite test. -/
def snapB : Snap := { phase := "B", reqs := [("X", reqCartB)], resps := [] }

/-- Payload of the well-formed entry of the decoder-resilience test. -/
def goodPayload : ReqPayload :=
  { url := some "https://www.webstaurantstore.com/cart/", method := some "GET",
    headers := some [("Accept", "text/html")], postData := none }

/-- A method rewriting that flips letter case while preserving whether the
method is POST; used to exercise the selector's method-class invariance. -/
def flipCase (m : String) : String :=
  if upperStr m == "POST" then "post" else "get"

/-- A response payload used by concrete tests. -/
def exRespPayload : RespPayload :=
  { status := some 200, headers := some [("Content-Type", "text/html")],
    mimeType := some "text/html" }

/-- The message of the well-formed entry of the decoder-resilience test. -/
def goodMsg : Msg := reqMsg "id1" goodPayload

/-- A well-formed raw entry. -/
def goodEntry : RawEntry := { message := some goodMsg }

/-- A malformed raw entry: its JSON payload does not parse. -/
def badEntry : RawEntry := { message := none }

/-- Invariant of the correlator state: request keys are pairwise distinct,
every stored sequence value lies between 1 and the counter, and no two
stored records share a sequence value. -/
def goodState (st : CollectState) : Prop :=
  (st.reqs.map Prod.fst).Nodup ∧
  (∀ p ∈ st.reqs, 1 ≤ p.2.seq ∧ p.2.seq ≤ st.seq) ∧
  st.reqs.Pairwise (fun p q => p.2.seq ≠ q.2.seq)

/-- A request whose url matches patterns of both add_to_cart (table index 1)
and view_cart (table index 2). -/
def reqDual : Req :=
  { seq := 3, url := "https://x.com/api/v2/cart/add", method := "POST",
    headers := [], postData := none }

/-- A one-request combined view used by the bucketing witness. -/
def exCombined : List (String × Req) := [("r1", reqDual)]

/-- The decorated candidate of `exCombined`. -/
def dualCand : Cand := decorate "r1" reqDual

/-- Two accepted RequestInitiated events, for ids "a" and "b". -/
def msgsAB : List Msg := [reqMsg "a" goodPayload, reqMsg "b" goodPayload]

/-! ## Theorems -/

/-! ### Dict lemmas -/

/-- Membership in a dict after an assignment. -/
theorem mem_dictInsert {V : Type} (m : List (String × V)) (k : String) (v : V)
    (x : String × V) (hx : x ∈ dictInsert m k v) : x = (k, v) ∨ x ∈ m := by
  induction m with
  | nil => simpa [dictInsert] using hx
  | cons p m ih =>
    by_cases hp : p.1 == k
    · rw [dictInsert, if_pos hp] at hx
      rcases List.mem_cons.1 hx with h | h
      · exact Or.inl h
      · exact Or.inr (List.mem_cons_of_mem _ h)
    · rw [dictInsert, if_neg hp] at hx
      rcases List.mem_cons.1 hx with h | h
      · exact Or.inr (h ▸ List.mem_cons_self _ _)
      · rcases ih h with h2 | h2
        · exact Or.inl h2
        · exact Or.inr (List.mem_cons_of_mem _ h2)

/-- Lookup after an assignment: the assigned key reads back the new value,
every other key is untouched. -/
theorem dlookup_dictInsert {V : Type} (m : List (String × V)) (k q : String) (v : V) :
    dlookup (dictInsert m k v) q = if k == q then some v else dlookup m q := by
  induction m with
  | nil => by_cases h : k == q <;> simp [dictInsert, dlookup, h]
  | cons p m ih =>
    by_cases hp : p.1 == k
    · have hpk : p.1 = k := by simpa using hp
      rw [dictInsert, if_pos hp]
      by_cases hq : k == q
      · simp [dlookup, hq]
      · have hpq : (p.1 == q) = false := by
          subst hpk; simpa using hq
        simp [dlookup, hq, hpq]
    · have hpk : p.1 ≠ k := by simpa using hp
      rw [dictInsert, if_neg hp]
      by_cases hpq : p.1 == q
      · have : (k == q) = false := by
          have : p.1 = q := by simpa using hpq
          simp [← this, Ne.symm hpk]
        simp [dlookup, hpq, this]
      · simp [dlookup, hpq, ih]

/-- A key that is never assigned reads back `none`. -/
theorem dlookup_eq_none {V : Type} (m : List (String × V)) (q : String)
    (h : ∀ p ∈ m, p.1 ≠ q) : dlookup m q = none := by
  induction m with
  | nil => rfl
  | cons p m ih =>
    have hp : (p.1 == q) = false := by
      simpa using h p (List.mem_cons_self _ _)
    rw [dlookup, if_neg (by simp [hp])]
    exact ih fun x hx => h x (List.mem_cons_of_mem _ hx)

/-- Lookup in a dict with pairwise-distinct keys finds the unique entry. -/
theorem dlookup_eq_of_mem {V : Type} (m : List (String × V))
    (hnd : (m.map Prod.fst).Nodup) (k : String) (v : V) (hm : (k, v) ∈ m) :
    dlookup m k = some v := by
  induction m with
  | nil => cases hm
  | cons p m ih =>
    rcases List.mem_cons.1 hm with h | h
    · subst h; simp [dlookup]
    · have hk : p.1 ≠ k := by
        intro he
        have : p.1 ∈ m.map Prod.fst := he ▸ List.mem_map_of_mem Prod.fst h
        exact (List.nodup_cons.1 (by simpa using hnd)).1 this
      rw [dlookup, if_neg (by simp [hk])]
      exact ih (List.nodup_cons.1 (by simpa using hnd)).2 h

/-- Keys present after an assignment. -/
theorem mem_keys_dictInsert {V : Type} (m : List (String × V)) (k : String) (v : V)
    (q : String) : q ∈ (dictInsert m k v).map Prod.fst ↔ q = k ∨ q ∈ m.map Prod.fst := by
  induction m with
  | nil => simp [dictInsert]
  | cons p m ih =>
    by_cases hp : p.1 == k
    · have hpk : p.1 = k := by simpa using hp
      rw [dictInsert, if_pos hp]
      simp [hpk]
    · rw [dictInsert, if_neg hp]
      simp [ih]
      tauto

/-- Assignment preserves distinctness of keys. -/
theorem nodup_keys_dictInsert {V : Type} (m : List (String × V)) (k : String) (v : V)
    (h : (m.map Prod.fst).Nodup) : ((dictInsert m k v).map Prod.fst).Nodup := by
  induction m with
  | nil => simp [dictInsert]
  | cons p m ih =>
    rw [List.map_cons, List.nodup_cons] at h
    by_cases hp : p.1 == k
    · have hpk : p.1 = k := by simpa using hp
      rw [dictInsert, if_pos hp]
      rw [List.map_cons, List.nodup_cons]
      exact ⟨hpk ▸ h.1, h.2⟩
    · have hpk : p.1 ≠ k := by simpa using hp
      rw [dictInsert, if_neg hp]
      rw [List.map_cons, List.nodup_cons]
      refine ⟨fun hc => ?_, ih h.2⟩
      rcases (mem_keys_dictInsert m k v p.1).1 hc with h2 | h2
      · exact hpk h2
      · exact h.1 h2

/-- Assignment of an element related to the whole dict preserves pairwise
relations between entries. -/
theorem pairwise_dictInsert {V : Type} {R : (String × V) → (String × V) → Prop}
    (m : List (String × V)) (k : String) (v : V) (hm : m.Pairwise R)
    (h1 : ∀ p ∈ m, R p (k, v)) (h2 : ∀ p ∈ m, R (k, v) p) :
    (dictInsert m k v).Pairwise R := by
  induction m with
  | nil => simp [dictInsert]
  | cons p m ih =>
    rw [List.pairwise_cons] at hm
    by_cases hp : p.1 == k
    · rw [dictInsert, if_pos hp]
      rw [List.pairwise_cons]
      exact ⟨fun q hq => h2 q (List.mem_cons_of_mem _ hq), hm.2⟩
    · rw [dictInsert, if_neg hp]
      rw [List.pairwise_cons]
      refine ⟨fun q hq => ?_, ih hm.2
        (fun q hq => h1 q (List.mem_cons_of_mem _ hq))
        (fun q hq => h2 q (List.mem_cons_of_mem _ hq))⟩
      rcases mem_dictInsert m k v q hq with h | h
      · exact h ▸ h1 p (List.mem_cons_self _ _)
      · exact hm.1 q h

/-! ### Redaction (claim C1) -/

/-- Output of `redact` always satisfies `redactedOK`. -/
theorem redactedOK_redact (h : Headers) : redactedOK (redact h) := by
  intro kv hkv hmem
  rcases List.mem_map.1 hkv with ⟨p, hp, hpe⟩
  by_cases hc : HIDE_HDRS.contains (lowerStr p.1)
  · rw [← hpe]
    exact if_pos hc
  · exfalso
    rw [← hpe] at hmem
    simp only at hmem
    simp [HIDE_HDRS] at hmem hc
    rcases hmem with h1 | h1 | h1 | h1 <;> simp [h1] at hc

/-- C1: the claim that every representation crossing the external interface
carries only redacted sensitive headers is false: the printed summary leaves
response headers unredacted (a Cookie header keeps its original value), and
the persisted JSON dump writes both request and response headers unredacted
(an Authorization header keeps its original value). -/
theorem C1_counterexample :
    ¬ redactedOK (print_request exCand exResp).responseHeaders ∧
    ∃ ph ∈ dump_phases [exSnap], (∃ rp ∈ ph.2.1, ¬ redactedOK rp.2.headers) ∧
      ∃ sp ∈ ph.2.2, ¬ redactedOK sp.2.headers := by
  decide

/-- C1 (amended): only the request headers of the printed summary are
redacted: they always satisfy `redactedOK`, while the printed response
headers and the whole persisted dump are emitted exactly as stored, with no
redaction applied. -/
theorem C1_redaction_amended (req : Cand) (resp : Resp) (snaps : List Snap) :
    redactedOK (print_request req resp).requestHeaders ∧
    (print_request req resp).responseHeaders = resp.headers ∧
    dump_phases snaps = snaps.map (fun s => (s.phase, s.reqs, s.resps)) :=
  ⟨redactedOK_redact req.headers, rfl, rfl⟩

/-! ### Decoder resilience (claim C5) -/

/-- C5: the decoder is best-effort: a malformed entry anywhere in a batch is
skipped silently, the rest of the batch decoding exactly as if the entry were
absent; in particular the batch of one well-formed RequestInitiated entry and
one malformed entry decodes to exactly one lifecycle event, and correlating
it yields exactly one request record and no response. -/
theorem C5_decoder_resilience :
    (∀ (pre post : List RawEntry) (bad : RawEntry), bad.message = none →
        perf (pre ++ bad :: post) = perf pre ++ perf post) ∧
    perf [goodEntry, badEntry] = [goodMsg] ∧
    (collect (perf [goodEntry, badEntry])).1 = [("id1", mkReq 1 goodPayload)] ∧
    (collect (perf [goodEntry, badEntry])).2 = [] := by
  refine ⟨fun pre post bad hbad => ?_, by decide, by decide, by decide⟩
  simp [perf, List.filterMap_append, List.filterMap_cons, hbad]

/-- Witness for C5 at a concrete batch. -/
theorem C5_witness :
    badEntry.message = none ∧
    perf ([goodEntry] ++ badEntry :: []) = perf [goodEntry] ++ perf [] :=
  ⟨rfl, C5_decoder_resilience.1 [goodEntry] [] badEntry rfl⟩

/-! ### Selector (claims C2 and C10) -/

/-- C2: the selector returns `none` on the empty bucket; on a non-empty
bucket it returns a member of the bucket that is minimal under the total
order by `(priorityRank(method), -sequence)` — any POST beats any non-POST,
and among equal priorities the highest sequence wins; on the spec's
tie-break test `[GET seq 5, POST seq 2, POST seq 9]` it returns the POST
with sequence 9. -/
theorem C2_selector :
    pick_best [] = none ∧
    (∀ cands : List Cand, cands ≠ [] →
      ∃ b, pick_best cands = some b ∧ b ∈ cands ∧ ∀ x ∈ cands, candLe b x) ∧
    pick_best [candGET5, candPOST2, candPOST9] = some candPOST9 := by
  refine ⟨rfl, ?_, by decide⟩
  intro cands hne
  have hperm : List.Perm (List.insertionSort candLe cands) cands :=
    List.perm_insertionSort candLe cands
  cases hs : List.insertionSort candLe cands with
  | nil =>
      exact absurd (hs ▸ hperm.symm).eq_nil hne
  | cons b rest =>
      have hemp : cands.isEmpty = false := by
        cases cands with
        | nil => exact absurd rfl hne
        | cons a l => rfl
      refine ⟨b, ?_, ?_, ?_⟩
      · unfold pick_best sortedBy
        rw [hemp, hs]
        rfl
      · exact hperm.mem_iff.1 (by rw [hs]; exact List.mem_cons_self _ _)
      · intro x hx
        have hx2 : x ∈ List.insertionSort candLe cands := hperm.mem_iff.2 hx
        rw [hs] at hx2
        rcases List.mem_cons.1 hx2 with he | hx3
        · exact he ▸ refl_of candLe b
        · have hsorted := List.sorted_insertionSort candLe cands
          rw [hs] at hsorted
          exact List.rel_of_sorted_cons hsorted x hx3

/-- Witness for C2 at the spec's tie-break bucket. -/
theorem C2_witness :
    ([candGET5, candPOST2, candPOST9] : List Cand) ≠ [] ∧
    ∃ b, pick_best [candGET5, candPOST2, candPOST9] = some b ∧
      b ∈ [candGET5, candPOST2, candPOST9] ∧
      ∀ x ∈ [candGET5, candPOST2, candPOST9], candLe b x :=
  ⟨by decide, C2_selector.2.1 [candGET5, candPOST2, candPOST9] (by decide)⟩

/-- Method rewritings preserving the POST test leave the sort key alone. -/
theorem sortKey_mapMethod (f : String → String)
    (hf : ∀ m, (upperStr (f m) == "POST") = (upperStr m == "POST")) (c : Cand) :
    sortKey (mapMethod f c) = sortKey c := by
  simp [sortKey, mapMethod, hf]

/-- Ordered insertion commutes with a POST-preserving method rewriting. -/
theorem orderedInsert_mapMethod (f : String → String)
    (hf : ∀ m, (upperStr (f m) == "POST") = (upperStr m == "POST"))
    (a : Cand) (l : List Cand) :
    List.orderedInsert candLe (mapMethod f a) (l.map (mapMethod f)) =
      (List.orderedInsert candLe a l).map (mapMethod f) := by
  induction l with
  | nil => rfl
  | cons b l ih =>
    have hiff : candLe (mapMethod f a) (mapMethod f b) ↔ candLe a b := by
      unfold candLe
      rw [sortKey_mapMethod f hf, sortKey_mapMethod f hf]
    simp only [List.map_cons, List.orderedInsert]
    by_cases h : candLe a b
    · rw [if_pos (hiff.2 h), if_pos h, List.map_cons, List.map_cons]
    · rw [if_neg (fun hc => h (hiff.1 hc)), if_neg h, List.map_cons, ih]

/-- Insertion sort commutes with a POST-preserving method rewriting. -/
theorem insertionSort_mapMethod (f : String → String)
    (hf : ∀ m, (upperStr (f m) == "POST") = (upperStr m == "POST"))
    (l : List Cand) :
    List.insertionSort candLe (l.map (mapMethod f)) =
      (List.insertionSort candLe l).map (mapMethod f) := by
  induction l with
  | nil => rfl
  | cons a l ih =>
    simp only [List.map_cons, List.insertionSort]
    rw [ih]
    exact orderedInsert_mapMethod f hf a _

/-- C10: the selector's priority classes are decided by the upper-cased
method only: any method uppercasing to POST ranks 0 and every other method
ranks 1; rewriting methods in a way that preserves the POST test never
changes the selection; a lower-case "post" beats a GET of higher sequence;
and among non-POST verbs only the sequence decides (PUT with sequence 7 wins
over GET 5 and DELETE 6). -/
theorem C10_method_ranking :
    (∀ c : Cand, upperStr c.method = "POST" → (sortKey c).1 = 0) ∧
    (∀ c : Cand, upperStr c.method ≠ "POST" → (sortKey c).1 = 1) ∧
    (∀ (f : String → String),
      (∀ m, (upperStr (f m) == "POST") = (upperStr m == "POST")) →
      ∀ cands : List Cand,
        pick_best (cands.map (mapMethod f)) = (pick_best cands).map (mapMethod f)) ∧
    pick_best [candLowerPost1, candGET9] = some candLowerPost1 ∧
    pick_best [candGET5, candPUT7, candDELETE6] = some candPUT7 := by
  refine ⟨?_, ?_, ?_, by decide, by decide⟩
  · intro c hc
    simp [sortKey, hc]
  · intro c hc
    have hb : (upperStr c.method == "POST") = false := by simpa using hc
    simp [sortKey, hb]
  · intro f hf cands
    cases cands with
    | nil => rfl
    | cons a l =>
      unfold pick_best sortedBy
      simp only [List.map_cons, List.isEmpty_cons]
      rw [show (mapMethod f a :: l.map (mapMethod f)) =
          ((a :: l).map (mapMethod f)) from rfl,
        insertionSort_mapMethod f hf, List.head?_map]
      rfl

/-- Witness for C10 with the case-flipping method rewriting. -/
theorem C10_witness :
    (∀ m, (upperStr (flipCase m) == "POST") = (upperStr m == "POST")) ∧
    pick_best ([candGET5, candPOST2, candPOST9].map (mapMethod flipCase)) =
      (pick_best [candGET5, candPOST2, candPOST9]).map (mapMethod flipCase) := by
  have hf : ∀ m, (upperStr (flipCase m) == "POST") = (upperStr m == "POST") := by
    intro m
    unfold flipCase
    cases h : (upperStr m == "POST") with
    | true => rw [if_pos (by simpa using h)]; decide
    | false => rw [if_neg (by simpa using h)]; decide
  exact ⟨hf, C10_method_ranking.2.2.1 flipCase hf [candGET5, candPOST2, candPOST9]⟩

/-! ### Classifier structure (claims C3 and C6) -/

/-- Appending to one bucket leaves the bucket names unchanged. -/
theorem bucketAppend_keys (bs : List (String × List Cand)) (a : String) (c : Cand) :
    (bucketAppend bs a c).map Prod.fst = bs.map Prod.fst := by
  unfold bucketAppend
  rw [List.map_map]
  apply List.map_congr_left
  intro p _
  by_cases h : p.1 = a <;> simp [h]

/-- One bucketing iteration, written as a map over the buckets. -/
theorem bucketStep_eq (bs : List (String × List Cand)) (rp : String × Req) :
    bucketStep bs rp = bs.map (fun p =>
      (p.1, p.2 ++ if firstAction rp.2.url = some p.1 then [decorate rp.1 rp.2] else [])) := by
  unfold bucketStep
  cases hf : ACTIONS.find? (fun ap => urlMatches rp.2.url ap.2) with
  | none =>
      have hfa : firstAction rp.2.url = none := by simp [firstAction, hf]
      simp [hfa]
  | some ap =>
      have hfa : firstAction rp.2.url = some ap.1 := by simp [firstAction, hf]
      unfold bucketAppend
      apply List.map_congr_left
      intro p _
      by_cases h : p.1 == ap.1
      · have hpe : p.1 = ap.1 := by simpa using h
        simp [h, hfa, hpe]
      · have hpe : p.1 ≠ ap.1 := by simpa using h
        simp [h, hfa, Ne.symm hpe]

/-- The bucketing fold, in closed form. -/
theorem buckets_foldl (l : List (String × Req)) (bs : List (String × List Cand)) :
    l.foldl bucketStep bs = bs.map (fun p =>
      (p.1, p.2 ++ (l.filter (fun rp => firstAction rp.2.url == some p.1)).map
          (fun rp => decorate rp.1 rp.2))) := by
  induction l generalizing bs with
  | nil => simp
  | cons rp l ih =>
    rw [List.foldl_cons, ih, bucketStep_eq, List.map_map]
    apply List.map_congr_left
    intro p _
    by_cases h : firstAction rp.2.url = some p.1
    · simp [List.filter_cons, h]
    · simp [List.filter_cons, h]

/-- Closed form of `buckets`: the bucket of each action, in table order, is
the ordered list of combined requests whose first matching action is it. -/
theorem buckets_eq (combined : List (String × Req)) :
    buckets combined = ACTIONS.map (fun ap =>
      (ap.1, (combined.filter (fun rp => firstAction rp.2.url == some ap.1)).map
          (fun rp => decorate rp.1 rp.2))) := by
  unfold buckets
  rw [buckets_foldl]
  rw [List.map_map]
  apply List.map_congr_left
  intro ap _
  simp

/-- The five action names are pairwise distinct. -/
theorem ACTIONS_keys_nodup : (ACTIONS.map Prod.fst).Nodup := by decide

/-- The action table names exactly the five summary actions, in order. -/
theorem ACTIONS_keys : ACTIONS.map Prod.fst = SUMMARY_ACTIONS := by decide

/-- The bucket Python reads with `buckets[action]`, in closed form. -/
theorem bucketOf_eq (combined : List (String × Req)) (a : String) (pats : List Pat)
    (ha : (a, pats) ∈ ACTIONS) :
    bucketOf combined a = (combined.filter (fun rp => firstAction rp.2.url == some a)).map
        (fun rp => decorate rp.1 rp.2) := by
  unfold bucketOf
  rw [buckets_eq]
  have hnd : ((ACTIONS.map (fun ap =>
      (ap.1, (combined.filter (fun rp => firstAction rp.2.url == some ap.1)).map
          (fun rp => decorate rp.1 rp.2)))).map Prod.fst).Nodup := by
    rw [List.map_map]
    exact ACTIONS_keys_nodup
  have hmem := List.mem_map_of_mem (fun ap =>
      (ap.1, (combined.filter (fun rp => firstAction rp.2.url == some ap.1)).map
          (fun rp => decorate rp.1 rp.2))) ha
  rw [dlookup_eq_of_mem _ hnd a _ hmem]
  rfl

/-- C6: classification always produces the complete five-action mapping: the
summary names exactly the five configured actions in order, the bucket map's
key set is exactly the five action names, and on the empty combined view
every action is reported not observed (`none` selected). -/
theorem C6_complete_mapping (combined : List (String × Req)) :
    (summary combined).map Prod.fst = SUMMARY_ACTIONS ∧
    (buckets combined).map Prod.fst = SUMMARY_ACTIONS ∧
    summary [] = SUMMARY_ACTIONS.map (fun a => (a, none)) := by
  refine ⟨?_, ?_, by decide⟩
  · unfold summary
    rw [List.map_map]
    exact List.map_id _
  · rw [buckets_eq, List.map_map]
    exact ACTIONS_keys

/-- A url assigned to an action matches at least one of its patterns. -/
theorem firstAction_spec (url a : String) (h : firstAction url = some a) :
    urlMatches url (patsOf a) = true := by
  unfold firstAction at h
  cases hf : ACTIONS.find? (fun ap => urlMatches url ap.2) with
  | none => rw [hf] at h; cases h
  | some ap =>
      rw [hf] at h
      have ha : ap.1 = a := by simpa using h
      have hmem : ap ∈ ACTIONS := List.mem_of_find?_eq_some hf
      have htrue : urlMatches url ap.2 = true := by simpa using List.find?_some hf
      have hdl : dlookup ACTIONS a = some ap.2 := by
        apply dlookup_eq_of_mem _ ACTIONS_keys_nodup
        rw [← ha]
        exact hmem
      unfold patsOf
      rw [hdl]
      exact htrue

/-- Buckets of names outside the table are empty. -/
theorem bucketOf_not_action (combined : List (String × Req)) (a : String)
    (h : a ∉ ACTIONS.map Prod.fst) : bucketOf combined a = [] := by
  unfold bucketOf
  rw [buckets_eq, dlookup_eq_none]
  · rfl
  · intro p hp
    rcases List.mem_map.1 hp with ⟨ap, hap, rfl⟩
    intro he
    exact h (he ▸ List.mem_map_of_mem Prod.fst hap)

/-- Every member of a bucket comes from the combined view and has that
bucket's action as its first matching action. -/
theorem mem_bucketOf (combined : List (String × Req)) (a : String) (c : Cand)
    (hc : c ∈ bucketOf combined a) :
    (c.rid, reqOf c) ∈ combined ∧ firstAction c.url = some a := by
  by_cases hka : a ∈ ACTIONS.map Prod.fst
  · rcases List.mem_map.1 hka with ⟨ap, hap, he⟩
    rw [bucketOf_eq combined a ap.2 (by rw [← he]; exact hap)] at hc
    rcases List.mem_map.1 hc with ⟨rp, hrp, rfl⟩
    have hf := List.mem_filter.1 hrp
    refine ⟨hf.1, ?_⟩
    simpa using hf.2
  · rw [bucketOf_not_action combined a hka] at hc
    cases hc

/-- C3: bucketing is exclusive and first-match-wins: every candidate in the
bucket of an action is a combined request whose first matching action (in
the fixed enumeration order) is that action and whose url matches at least
one of that action's patterns; and when the combined ids are distinct, an
ExchangeId appears in at most one bucket. -/
theorem C3_bucketing (combined : List (String × Req)) :
    (∀ a : String, ∀ c ∈ bucketOf combined a,
        (c.rid, reqOf c) ∈ combined ∧
        firstAction c.url = some a ∧
        urlMatches c.url (patsOf a) = true) ∧
    ((combined.map Prod.fst).Nodup →
      ∀ a b : String, ∀ c ∈ bucketOf combined a, ∀ d ∈ bucketOf combined b,
        c.rid = d.rid → a = b) := by
  constructor
  · intro a c hc
    obtain ⟨h1, h2⟩ := mem_bucketOf combined a c hc
    exact ⟨h1, h2, firstAction_spec _ _ h2⟩
  · intro hnd a b c hc d hd hrid
    obtain ⟨hc1, hc2⟩ := mem_bucketOf combined a c hc
    obtain ⟨hd1, hd2⟩ := mem_bucketOf combined b d hd
    have e1 : dlookup combined c.rid = some (reqOf c) :=
      dlookup_eq_of_mem _ hnd _ _ hc1
    have e2 : dlookup combined d.rid = some (reqOf d) :=
      dlookup_eq_of_mem _ hnd _ _ hd1
    rw [hrid, e2] at e1
    have hreq : reqOf d = reqOf c := Option.some.inj e1
    have hurl : c.url = d.url := (congrArg Req.url hreq).symm
    have hsome : some a = some b := by
      rw [← hc2, ← hd2, hurl]
    exact Option.some.inj hsome

/-- Witness for C3: the url of `dualCand` matches patterns of both
add_to_cart and view_cart; it is bucketed under add_to_cart (the lower
enumeration index) and the view_cart bucket stays empty. -/
theorem C3_witness :
    dualCand ∈ bucketOf exCombined "add_to_cart" ∧
    ((dualCand.rid, reqOf dualCand) ∈ exCombined ∧
      firstAction dualCand.url = some "add_to_cart" ∧
      urlMatches dualCand.url (patsOf "add_to_cart") = true) ∧
    urlMatches dualCand.url (patsOf "view_cart") = true ∧
    bucketOf exCombined "view_cart" = [] ∧
    (("add_to_cart" : String) = "add_to_cart") := by
  have hmem : dualCand ∈ bucketOf exCombined "add_to_cart" := by decide
  have h1 := (C3_bucketing exCombined).1 "add_to_cart" dualCand hmem
  have h2 := (C3_bucketing exCombined).2 (by decide) "add_to_cart" "add_to_cart"
    dualCand hmem dualCand hmem rfl
  exact ⟨hmem, h1, by decide, by decide, h2⟩

/-! ### Correlation gaps (claim C7) -/

/-- Running the correlator over concatenated event lists composes. -/
theorem collectFrom_append (st : CollectState) (l1 l2 : List Msg) :
    collectFrom st (l1 ++ l2) = collectFrom (collectFrom st l1) l2 := by
  unfold collectFrom
  rw [List.foldl_append]

/-- Effect of one ResponseArrived message on the state. -/
theorem collectStep_respMsg (st : CollectState) (rid : String) (rp : RespPayload)
    (h : rid.isEmpty = false) :
    collectStep st (respMsg rid rp) =
      { st with resps := dictInsert st.resps rid (mkResp rp) } := by
  simp [collectStep, respMsg, h]

/-- Effect of one RequestInitiated message on the state. -/
theorem collectStep_reqMsg (st : CollectState) (rid : String) (rqp : ReqPayload)
    (h : rid.isEmpty = false) :
    collectStep st (reqMsg rid rqp) =
      { seq := st.seq + 1, reqs := dictInsert st.reqs rid (mkReq (st.seq + 1) rqp),
        resps := st.resps } := by
  simp [collectStep, reqMsg, h]

/-- C7: a ResponseArrived event carrying a (non-empty) id stores or
overwrites the response record for that id unconditionally — also when no
request record exists for it — and leaves the request map untouched;
symmetrically, a RequestInitiated event leaves the response map untouched,
so an exchange with only one half is kept as-is in the snapshot. -/
theorem C7_response_unconditional (msgs : List Msg) (rid : String)
    (rp : RespPayload) (rqp : ReqPayload) (h : rid.isEmpty = false) :
    dlookup (collect (msgs ++ [respMsg rid rp])).2 rid = some (mkResp rp) ∧
    (collect (msgs ++ [respMsg rid rp])).1 = (collect msgs).1 ∧
    (collect (msgs ++ [reqMsg rid rqp])).2 = (collect msgs).2 := by
  have e1 : collectFrom ⟨0, [], []⟩ (msgs ++ [respMsg rid rp]) =
      collectStep (collectFrom ⟨0, [], []⟩ msgs) (respMsg rid rp) := by
    rw [collectFrom_append]; rfl
  have e2 : collectFrom ⟨0, [], []⟩ (msgs ++ [reqMsg rid rqp]) =
      collectStep (collectFrom ⟨0, [], []⟩ msgs) (reqMsg rid rqp) := by
    rw [collectFrom_append]; rfl
  refine ⟨?_, ?_, ?_⟩
  · show dlookup (collectFrom ⟨0, [], []⟩ (msgs ++ [respMsg rid rp])).resps rid = _
    rw [e1, collectStep_respMsg _ _ _ h]
    rw [dlookup_dictInsert]
    simp
  · show (collectFrom ⟨0, [], []⟩ (msgs ++ [respMsg rid rp])).reqs = _
    rw [e1, collectStep_respMsg _ _ _ h]
    rfl
  · show (collectFrom ⟨0, [], []⟩ (msgs ++ [reqMsg rid rqp])).resps = _
    rw [e2, collectStep_reqMsg _ _ _ h]
    rfl

/-- Witness for C7: a response with no request is stored and reported. -/
theorem C7_witness :
    ("r9" : String).isEmpty = false ∧
    (dlookup (collect ([] ++ [respMsg "r9" exRespPayload])).2 "r9" =
        some (mkResp exRespPayload) ∧
      (collect ([] ++ [respMsg "r9" exRespPayload])).1 = (collect []).1 ∧
      (collect ([] ++ [reqMsg "r9" goodPayload])).2 = (collect []).2) :=
  ⟨rfl, C7_response_unconditional [] "r9" exRespPayload goodPayload rfl⟩

/-! ### Aggregation (claim C4) -/

/-- Lookup after a dict update: the updated pairs answer first (their key set
having no duplicates), the original dict otherwise. -/
theorem dlookup_dictUpdate {V : Type} (m other : List (String × V)) (k : String)
    (hnd : (other.map Prod.fst).Nodup) :
    dlookup (dictUpdate m other) k = (dlookup other k).or (dlookup m k) := by
  induction other generalizing m with
  | nil => simp [dictUpdate, dlookup]
  | cons p rest ih =>
    rw [List.map_cons, List.nodup_cons] at hnd
    have he : dictUpdate m (p :: rest) = dictUpdate (dictInsert m p.1 p.2) rest := rfl
    rw [he, ih _ hnd.2, dlookup_dictInsert]
    by_cases hk : p.1 == k
    · have hpk : p.1 = k := by simpa using hk
      have hnone : dlookup rest k = none := by
        apply dlookup_eq_none
        intro q hq he2
        exact hnd.1 (hpk ▸ he2 ▸ List.mem_map_of_mem Prod.fst hq)
      rw [dlookup, if_pos hk, hnone, if_pos hk]
      rfl
    · rw [dlookup, if_neg (by simpa using hk), if_neg (by simpa using hk)]

/-- Lookup through a fold of dict updates: the last dict containing the key
answers, then the starting dict. -/
theorem dlookup_foldl_update {V : Type} (ds : List (List (String × V)))
    (m : List (String × V)) (k : String) (hnd : ∀ d ∈ ds, (d.map Prod.fst).Nodup) :
    dlookup (ds.foldl (fun acc d => dictUpdate acc d) m) k =
      ds.foldl (fun acc d => (dlookup d k).or acc) (dlookup m k) := by
  induction ds generalizing m with
  | nil => rfl
  | cons d ds ih =>
    rw [List.foldl_cons, List.foldl_cons,
      ih _ (fun x hx => hnd x (List.mem_cons_of_mem _ hx)),
      dlookup_dictUpdate m d k (hnd d (List.mem_cons_self _ _))]

/-- C4: aggregation is a left-to-right overwrite fold by ExchangeId with no
merge of fields: for every id, the combined view's request and the combined
view's response both come entirely from the last snapshot containing that
id. -/
theorem C4_aggregation (snaps : List Snap)
    (h : ∀ s ∈ snaps, (s.reqs.map Prod.fst).Nodup ∧ (s.resps.map Prod.fst).Nodup)
    (id : String) :
    dlookup (combined_reqs snaps) id = lastReq snaps id ∧
    dlookup (combined_resps snaps) id = lastResp snaps id := by
  constructor
  · have h1 := dlookup_foldl_update (snaps.map Snap.reqs) [] id (by
      intro d hd
      rcases List.mem_map.1 hd with ⟨s, hs, rfl⟩
      exact (h s hs).1)
    rw [List.foldl_map, List.foldl_map] at h1
    exact h1
  · have h1 := dlookup_foldl_update (snaps.map Snap.resps) [] id (by
      intro d hd
      rcases List.mem_map.1 hd with ⟨s, hs, rfl⟩
      exact (h s hs).2)
    rw [List.foldl_map, List.foldl_map] at h1
    exact h1

/-- Witness for C4: the spec's aggregation-overwrite test, phase A storing
url "/cart" for id "X" and phase B storing "/cart/updated": the combined
view's request for "X" is phase B's record entirely. -/
theorem C4_witness :
    (∀ s ∈ [snapA, snapB], (s.reqs.map Prod.fst).Nodup ∧ (s.resps.map Prod.fst).Nodup) ∧
    dlookup (combined_reqs [snapA, snapB]) "X" = lastReq [snapA, snapB] "X" ∧
    lastReq [snapA, snapB] "X" = some reqCartB ∧
    reqCartB.url = "/cart/updated" :=
  ⟨by decide, (C4_aggregation [snapA, snapB] (by decide) "X").1, by decide, rfl⟩

/-! ### Sequence counters (claim C9) -/

/-- One correlator step preserves the state invariant and never decreases
the counter. -/
theorem collectStep_invariant (st : CollectState) (m : Msg) (h : goodState st) :
    goodState (collectStep st m) ∧ st.seq ≤ (collectStep st m).seq := by
  unfold collectStep
  by_cases h1 : m.method == some "Network.requestWillBeSent"
  · rw [if_pos h1]
    cases hrid : m.params.requestId with
    | none => exact ⟨h, le_refl _⟩
    | some rid =>
        dsimp only
        by_cases hre : rid.isEmpty
        · rw [if_pos hre]
          exact ⟨h, le_refl _⟩
        · rw [if_neg hre]
          obtain ⟨hkeys, hbound, hpair⟩ := h
          refine ⟨⟨nodup_keys_dictInsert _ _ _ hkeys, ?_, ?_⟩, ?_⟩
          · intro p hp
            rcases mem_dictInsert _ _ _ _ hp with he | hm2
            · rw [he]
              show 1 ≤ st.seq + 1 ∧ st.seq + 1 ≤ st.seq + 1
              omega
            · have := hbound p hm2
              show 1 ≤ p.2.seq ∧ p.2.seq ≤ st.seq + 1
              omega
          · apply pairwise_dictInsert _ _ _ hpair
            · intro p hp
              have := hbound p hp
              show p.2.seq ≠ st.seq + 1
              omega
            · intro p hp
              have := hbound p hp
              show st.seq + 1 ≠ p.2.seq
              omega
          · show st.seq ≤ st.seq + 1
            omega
  · rw [if_neg h1]
    by_cases h2 : m.method == some "Network.responseReceived"
    · rw [if_pos h2]
      cases hrid : m.params.requestId with
      | none => exact ⟨h, le_refl _⟩
      | some rid =>
          dsimp only
          by_cases hre : rid.isEmpty
          · rw [if_pos hre]
            exact ⟨h, le_refl _⟩
          · rw [if_neg hre]
            exact ⟨h, le_refl _⟩
    · rw [if_neg h2]
      exact ⟨h, le_refl _⟩

/-- The whole correlator run preserves the state invariant, the counter
never decreasing. -/
theorem collectFrom_invariant (msgs : List Msg) (st : CollectState)
    (h : goodState st) :
    goodState (collectFrom st msgs) ∧ st.seq ≤ (collectFrom st msgs).seq := by
  induction msgs generalizing st with
  | nil => exact ⟨h, le_refl _⟩
  | cons m msgs ih =>
      have hstep := collectStep_invariant st m h
      have hrest := ih (collectStep st m) hstep.1
      exact ⟨hrest.1, le_trans hstep.2 hrest.2⟩

/-- C9: within one phase, sequence values are unique and strictly increase
in observation order: every stored record carries a positive sequence
bounded by the counter of accepted RequestInitiated events, no two stored
records share a sequence value, and one more accepted event for id `rid`
advances the counter and overwrites that id with a record carrying the new
counter value, strictly greater than every previously stored sequence (last
write wins). -/
theorem C9_sequence_uniqueness (msgs : List Msg) (rid : String) (rqp : ReqPayload)
    (h : rid.isEmpty = false) :
    ((collect msgs).1.Pairwise (fun p q => p.2.seq ≠ q.2.seq)) ∧
    (∀ p ∈ (collect msgs).1, 1 ≤ p.2.seq ∧ p.2.seq ≤ seqCounter msgs) ∧
    dlookup (collect (msgs ++ [reqMsg rid rqp])).1 rid =
      some (mkReq (seqCounter msgs + 1) rqp) ∧
    seqCounter (msgs ++ [reqMsg rid rqp]) = seqCounter msgs + 1 ∧
    (∀ p ∈ (collect msgs).1, p.2.seq < seqCounter msgs + 1) := by
  have hinv := collectFrom_invariant msgs ⟨0, [], []⟩
    ⟨List.nodup_nil, fun p hp => absurd hp (List.not_mem_nil p), List.Pairwise.nil⟩
  have happ : collectFrom ⟨0, [], []⟩ (msgs ++ [reqMsg rid rqp]) =
      collectStep (collectFrom ⟨0, [], []⟩ msgs) (reqMsg rid rqp) := by
    rw [collectFrom_append]; rfl
  refine ⟨hinv.1.2.2, hinv.1.2.1, ?_, ?_, ?_⟩
  · show dlookup (collectFrom ⟨0, [], []⟩ (msgs ++ [reqMsg rid rqp])).reqs rid = _
    rw [happ, collectStep_reqMsg _ _ _ h]
    show dlookup (dictInsert _ rid _) rid = _
    rw [dlookup_dictInsert]
    simp [seqCounter]
  · show (collectFrom ⟨0, [], []⟩ (msgs ++ [reqMsg rid rqp])).seq = _
    rw [happ, collectStep_reqMsg _ _ _ h]
    rfl
  · intro p hp
    have := hinv.1.2.1 p hp
    unfold seqCounter
    omega

/-- Witness for C9: two accepted events for ids "a" and "b", then a
recurrence of id "a": the recurrence overwrites "a" with sequence 3. -/
theorem C9_witness :
    ("a" : String).isEmpty = false ∧
    (((collect msgsAB).1.Pairwise (fun p q => p.2.seq ≠ q.2.seq)) ∧
      (∀ p ∈ (collect msgsAB).1, 1 ≤ p.2.seq ∧ p.2.seq ≤ seqCounter msgsAB) ∧
      dlookup (collect (msgsAB ++ [reqMsg "a" goodPayload])).1 "a" =
        some (mkReq (seqCounter msgsAB + 1) goodPayload) ∧
      seqCounter (msgsAB ++ [reqMsg "a" goodPayload]) = seqCounter msgsAB + 1 ∧
      (∀ p ∈ (collect msgsAB).1, p.2.seq < seqCounter msgsAB + 1)) :=
  ⟨rfl, C9_sequence_uniqueness msgsAB "a" goodPayload rfl⟩

/-! ### Determinism (claim C8) -/

/-- C8: the decode-correlate-aggregate pipeline is deterministic: two runs
over equal ordered lists of raw log-entry batches produce equal combined
views (the combined view is a pure function of the batches), and feeding the
correlator the same event sequence twice yields the same snapshot both
times. -/
theorem C8_determinism (batches1 batches2 : List (String × List RawEntry))
    (hb : batches1 = batches2) :
    pipeline batches1 = pipeline batches2 ∧
    ∀ msgs1 msgs2 : List Msg, msgs1 = msgs2 → collect msgs1 = collect msgs2 := by
  subst hb
  exact ⟨rfl, fun a b e => by rw [e]⟩

/-- Witness for C8 at a concrete batch list. -/
theorem C8_witness :
    pipeline [("pdp", [goodEntry, badEntry])] = pipeline [("pdp", [goodEntry, badEntry])] ∧
    ∀ msgs1 msgs2 : List Msg, msgs1 = msgs2 → collect msgs1 = collect msgs2 :=
  C8_determinism [("pdp", [goodEntry, badEntry])] [("pdp", [goodEntry, badEntry])] rfl

end Webstraunt
